import Mathlib

/-!
Shallow embedding of `precodita/_dispatcher.pyx` (the backend / dispatch
engine of the `precodita` proof-of-concept dispatcher).

Modelling conventions:
* Python type objects become `Ty`, a wrapper around a `Nat` identifier.
  Object identity (`is`) coincides with equality of the identifier, and the
  incidental pointer ordering used by `sorted_unique_types` becomes ordering
  of the identifier.
* The ambient class hierarchy (which types are `abc.ABCMeta` instances, and
  the result of `issubclass`) is a parameter `TypeWorld`, since the dispatch
  code only queries it through `isinstance(_, abc.ABCMeta)` / `issubclass`.
* Implementations (Python callables) are opaque and become `Nat` tags.
* The module-global state touched by dispatch (`_max_priority` and each
  opt-in backend's `contextvars` value) becomes an explicit `GState` record;
  the per-backend context variable is a stack of pushed priorities keyed by
  the backend's identity (`set` pushes, `reset(token)` in LIFO use pops),
  with the empty stack denoting the default value `-1`.
* `Dispatchable`'s mutable fields (the cache dict, in insertion order with
  the oldest entry first, and the three counters) are explicit record
  fields; methods return the updated record.
* `raise` becomes `Except Fault`; the exception messages of the source are
  mapped one-to-one onto `Fault` constructors (all dispatch-side faults are
  `TypeError`s in the source, distinguished by message).
-/

set_option linter.all false

/-- A Python type object, identified (like CPython object identity) by a
numeric id.  `sorted_unique_types` orders raw pointers; here that order is
the order of `id`. -/
structure Ty where
  id : Nat
deriving DecidableEq, Repr

/-- The ambient class hierarchy as the dispatcher sees it: whether a type
object is an instance of `abc.ABCMeta`, and the result of `issubclass`. -/
structure TypeWorld where
  isAbstract : Ty → Bool
  issubclass : Ty → Ty → Bool

/-- `is_strict_subclass(cls, other)` of `_dispatcher.pyx`: `True` if `cls is
other`; for a concrete `other` nothing else matches; for an ABC `other`,
defer to `issubclass`. -/
def is_strict_subclass (W : TypeWorld) (cls other : Ty) : Bool :=
  if cls = other then true
  else if W.isAbstract other = false then false
  else W.issubclass cls other

/-- The faults the dispatcher can raise, one constructor per `raise` site
relevant to dispatch/registration/scoping:
* `noFallbackUntyped`: `TypeError("Function called without types, but has no fallback!")`
* `noImplementation`: `TypeError("No implementation found for types: ...")`
* `ambiguousHierarchy`: `TypeError("invalid type-hierarchy for two backends both claim to be more specific!")`
* `ambiguousResolution`: `TypeError("Multiple matching implementations found!")`
* `invalidScope`: `RuntimeError("Cannot prioritize this backend!")`
* `duplicateRegistration`: `ValueError("Backend already has an alternative registered.")` -/
inductive Fault where
  | noFallbackUntyped
  | noImplementation
  | ambiguousHierarchy
  | ambiguousResolution
  | invalidScope
  | duplicateRegistration
deriving DecidableEq, Repr

/-- A `Backend` object.  `bid` is its identity (the `_backend_counter` value
at creation).  For an always-enabled backend (`opt_in=False`),
`fixed_priority` is the positive counter value; for an opt-in backend it is
`-1` and the effective priority lives in the context variable (see
`GState`). -/
structure Backend where
  bid : Nat
  dispatch_type : Ty
  promotable_types : List Ty
  fixed_priority : Int
deriving DecidableEq, Repr

/-- The module-global mutable state read by dispatch: `_max_priority` and
every opt-in backend's context-variable priority stack (keyed by backend
identity; missing key / empty stack = default `-1`). -/
structure GState where
  max_priority : Int
  ctx : List (Nat × List Int)
deriving DecidableEq, Repr

/-- Current stack of context-variable values pushed for backend id `bid`. -/
def ctxGet (ctx : List (Nat × List Int)) (bid : Nat) : List Int :=
  (Option.map Prod.snd (ctx.find? (fun p => p.1 = bid))).getD []

/-- Replace (or create) the stack stored for backend id `bid`. -/
def ctxSet : List (Nat × List Int) → Nat → List Int → List (Nat × List Int)
  | [], bid, v => [(bid, v)]
  | p :: rest, bid, v =>
    if p.1 = bid then (bid, v) :: rest else p :: ctxSet rest bid v

/-- `Backend.get_priority`: the fixed priority if non-negative, else the
context variable's current value (default `-1`). -/
def Backend.get_priority (b : Backend) (gs : GState) : Int :=
  if 0 ≤ b.fixed_priority then b.fixed_priority
  else ((ctxGet gs.ctx b.bid).head?).getD (-1)

/-- `Backend.__enter__`: refuses fixed-priority backends, bumps
`_max_priority` and pushes the new maximum as this backend's
context-variable value (recording the token). -/
def Backend.enter (b : Backend) (gs : GState) : Except Fault GState :=
  if 0 ≤ b.fixed_priority then .error .invalidScope
  else
    let m := gs.max_priority + 1
    .ok ⟨m, ctxSet gs.ctx b.bid (m :: ctxGet gs.ctx b.bid)⟩

/-- `Backend.__exit__`: bumps `_max_priority` and pops the most recently
pushed token, restoring the previous context-variable value.  `none` models
the `IndexError` of popping an empty token list (unbalanced exit). -/
def Backend.exit (b : Backend) (gs : GState) : Option GState :=
  match ctxGet gs.ctx b.bid with
  | [] => none
  | _ :: rest => some ⟨gs.max_priority + 1, ctxSet gs.ctx b.bid rest⟩

/-- `Backend.matches`: find the first "main" (anchor) type — by identity if
`dispatch_type` is concrete, by `issubclass` if it is an ABC — then require
every other given type to be a strict-subclass of `dispatch_type` or of some
promotable type. -/
def Backend.matches (b : Backend) (W : TypeWorld) (given_types : List Ty) : Bool :=
  let main :=
    if W.isAbstract b.dispatch_type = false then
      given_types.find? (fun t => t = b.dispatch_type)
    else
      given_types.find? (fun t => W.issubclass t b.dispatch_type)
  match main with
  | none => false
  | some m =>
    given_types.all (fun t =>
      t = m || is_strict_subclass W t b.dispatch_type ||
        b.promotable_types.any (fun allowed => is_strict_subclass W t allowed))

/-- `Backend._more_specific`: for identical dispatch types, compare fixed
priorities when both are fixed (else `False`); otherwise this backend is
more specific when its dispatch type is a strict-subclass of the other's
dispatch type or of one of the other's promotable types. -/
def Backend.more_specific (b : Backend) (W : TypeWorld) (other : Backend) : Bool :=
  if b.dispatch_type = other.dispatch_type then
    if 0 ≤ b.fixed_priority ∧ 0 ≤ other.fixed_priority then
      decide (other.fixed_priority < b.fixed_priority)
    else false
  else
    is_strict_subclass W b.dispatch_type other.dispatch_type ||
      other.promotable_types.any
        (fun promotable => is_strict_subclass W b.dispatch_type promotable)

/-- `Backend.__richcmp__` restricted to `<` (the only implemented
comparison): `b < other` holds when `b` is strictly more specific; if the
opposite direction also claims to be more specific the comparison raises
the invalid-type-hierarchy `TypeError`. -/
def blt (W : TypeWorld) (b other : Backend) : Except Fault Bool :=
  if b.more_specific W other = false then .ok false
  else if other.more_specific W b then .error .ambiguousHierarchy
  else .ok true

/-- One insertion step of `sorted_unique_types`: walk the (sorted, by id)
list; drop `t` if an identical entry is found, insert it before the first
larger entry, else append. -/
def insertUnique : List Ty → Ty → List Ty
  | [], t => [t]
  | u :: rest, t =>
    if t = u then u :: rest
    else if t.id < u.id then t :: u :: rest
    else u :: insertUnique rest t

/-- `sorted_unique_types`: insertion sort by object identity order that
drops duplicate (identical) types. -/
def sorted_unique_types (types : List Ty) : List Ty :=
  types.foldl insertUnique []

/-- The result of a successful dispatch: `(backend_or_None, implementation)`
where `none` marks the fallback. -/
abbrev DispatchRes := Option Backend × Nat

/-- One value of the `Dispatchable.cache` dict:
`(matching_impls, (stamp, stored))` — the structurally matching candidates
plus the priority-resolved pick, valid while `stamp` equals the global
`_max_priority` (`(-1, None)` is the unresolved placeholder). -/
structure CacheEntry where
  matching : List (Backend × Nat)
  stamp : Int
  stored : Option DispatchRes
deriving DecidableEq, Repr

/-- `dict.pop(key, None)` on the insertion-ordered cache (oldest entry
first): remove and return the entry for `k`, if any. -/
def cachePop : List (List Ty × CacheEntry) → List Ty →
    Option CacheEntry × List (List Ty × CacheEntry)
  | [], _ => (none, [])
  | (k', e) :: rest, k =>
    if k' = k then (some e, rest)
    else
      let r := cachePop rest k
      (r.1, (k', e) :: r.2)

/-- `dict` assignment on the insertion-ordered cache: overwrite in place if
the key exists (keeping its position), else append as newest. -/
def cacheSet : List (List Ty × CacheEntry) → List Ty → CacheEntry →
    List (List Ty × CacheEntry)
  | [], k, e => [(k, e)]
  | (k', e') :: rest, k, e =>
    if k' = k then (k, e) :: rest else (k', e') :: cacheSet rest k e

/-- A `Dispatchable` object: the fallback, the registered alternatives (in
registration order), the insertion-ordered cache and the three cache-stat
counters.  Implementations are opaque `Nat` tags. -/
structure Dispatchable where
  fallback : Option Nat
  alternatives : List (Backend × Nat)
  cache : List (List Ty × CacheEntry)
  c_hits : Nat
  c_misses : Nat
  c_priority_misses : Nat
deriving DecidableEq, Repr

/-- `Dispatchable._clear_cache`: empty the cache and zero the counters. -/
def Dispatchable.clear_cache (d : Dispatchable) : Dispatchable :=
  { d with cache := [], c_hits := 0, c_misses := 0, c_priority_misses := 0 }

/-- `Dispatchable.register` (with a concrete `func`): raise on a duplicate
backend, else append the pair and clear the caches. -/
def Dispatchable.register (d : Dispatchable) (backend : Backend) (func : Nat) :
    Dispatchable × Except Fault Nat :=
  if d.alternatives.any (fun alt => alt.1 = backend) then
    (d, .error .duplicateRegistration)
  else
    (Dispatchable.clear_cache { d with alternatives := d.alternatives ++ [(backend, func)] },
     .ok func)

/-- The inner candidate-placement loop of `Dispatchable.dispatch`: compare
the new matching backend against each present candidate; stop unchanged if
an existing candidate is strictly more specific, replace the first strictly
less specific candidate, and append when no candidate compares. -/
def insertCandidate (W : TypeWorld) :
    List (Backend × Nat) → Backend × Nat → Except Fault (List (Backend × Nat))
  | [], bf => .ok [bf]
  | c :: rest, bf =>
    match blt W c.1 bf.1 with
    | .error e => .error e
    | .ok true => .ok (c :: rest)
    | .ok false =>
      match blt W bf.1 c.1 with
      | .error e => .error e
      | .ok true => .ok (bf :: rest)
      | .ok false => (insertCandidate W rest bf).map (fun l => c :: l)

/-- The loop of the candidate-list construction of `Dispatchable.dispatch`
on a cache miss, with the candidates accumulated so far as first list
argument: keep the structurally matching alternatives, ordered/filtered by
`insertCandidate`. -/
def buildMatchingAux (W : TypeWorld) (typet : List Ty) :
    List (Backend × Nat) → List (Backend × Nat) → Except Fault (List (Backend × Nat))
  | ml, [] => .ok ml
  | ml, bf :: rest =>
    if bf.1.matches W typet then
      match insertCandidate W ml bf with
      | .error e => .error e
      | .ok ml2 => buildMatchingAux W typet ml2 rest
    else buildMatchingAux W typet ml rest

/-- The candidate-list construction of `Dispatchable.dispatch` on a cache
miss: iterate the registered alternatives starting from an empty candidate
list. -/
def buildMatching (W : TypeWorld) (alternatives : List (Backend × Nat))
    (typet : List Ty) : Except Fault (List (Backend × Nat)) :=
  buildMatchingAux W typet [] alternatives

/-- The priority scan of `Dispatchable.dispatch` over a multi-candidate
list: skip disabled candidates, raise on a second enabled candidate with a
different dispatch type, keep the strictly higher-priority candidate. -/
def scanPriority (W : TypeWorld) (gs : GState) :
    List (Backend × Nat) → Option (Backend × Nat) →
      Except Fault (Option (Backend × Nat))
  | [], res => .ok res
  | c :: rest, res =>
    if c.1.get_priority gs < 0 then scanPriority W gs rest res
    else
      match res with
      | none => scanPriority W gs rest (some c)
      | some r =>
        if r.1.dispatch_type ≠ c.1.dispatch_type then .error .ambiguousResolution
        else if r.1.get_priority gs < c.1.get_priority gs then
          scanPriority W gs rest (some c)
        else scanPriority W gs rest (some r)

/-- The resolution tail of `Dispatchable.dispatch`, applied to the matching
candidate list: empty list falls back (or raises), a single candidate is
returned unconditionally, and a longer list goes through the priority scan,
whose non-`None` outcome is also written back to the cache stamped with the
current `_max_priority`. -/
def Dispatchable.resolve (d : Dispatchable) (W : TypeWorld) (gs : GState)
    (typet : List Ty) (ml : List (Backend × Nat)) :
    Dispatchable × Except Fault (Option DispatchRes) :=
  match ml with
  | [] =>
    match d.fallback with
    | some f => (d, .ok (some (none, f)))
    | none => (d, .error .noImplementation)
  | [c] => (d, .ok (some (some c.1, c.2)))
  | _ :: _ :: _ =>
    match scanPriority W gs ml none with
    | .error e => (d, .error e)
    | .ok r =>
      let res : Option DispatchRes :=
        match r with
        | some c => some (some c.1, c.2)
        | none => d.fallback.map (fun f => (none, f))
      match res with
      | some r2 =>
        ({ d with cache := cacheSet d.cache typet ⟨ml, gs.max_priority, some r2⟩ },
         .ok (some r2))
      | none => (d, .error .noImplementation)

/-- `Dispatchable.dispatch`.  Returns the mutated object together with the
outcome: `.ok (some res)` for a normal return, `.error f` for a raise, and
`.ok none` for the (unreachable in a real process, where `_max_priority ≥ 0`)
path that would return the cached `None` placeholder. -/
def Dispatchable.dispatch (d : Dispatchable) (W : TypeWorld) (gs : GState)
    (types : List Ty) : Dispatchable × Except Fault (Option DispatchRes) :=
  let typet := sorted_unique_types types
  if typet = [] then
    match d.fallback with
    | some f => (d, .ok (some (none, f)))
    | none => (d, .error .noFallbackUntyped)
  else
    match cachePop d.cache typet with
    | (some cached, rest) =>
      let d1 := { d with cache := rest ++ [(typet, cached)], c_hits := d.c_hits + 1 }
      if 1 < cached.matching.length then
        if gs.max_priority = cached.stamp then (d1, .ok cached.stored)
        else
          Dispatchable.resolve
            { d1 with c_priority_misses := d1.c_priority_misses + 1 }
            W gs typet cached.matching
      else Dispatchable.resolve d1 W gs typet cached.matching
    | (none, _) =>
      let d1 := { d with c_misses := d.c_misses + 1 }
      match buildMatching W d1.alternatives typet with
      | .error e => (d1, .error e)
      | .ok ml =>
        let cache2 := if 20 ≤ d1.cache.length then d1.cache.tail else d1.cache
        let d2 := { d1 with cache := cache2 ++ [(typet, ⟨ml, -1, none⟩)] }
        Dispatchable.resolve d2 W gs typet ml

deriving instance DecidableEq for Except

/-! ## Concrete scenario material shared by several verification theorems -/

/-- A world with no ABCs: every type is concrete, `issubclass` is identity. -/
def worldFlat : TypeWorld := ⟨fun _ => false, fun a b => decide (a = b)⟩

/-- A stand-in concrete type (e.g. `int`). -/
def tyNum : Ty := ⟨0⟩

/-- The initial global state of the module: `_max_priority = 2 ** 16`, no
context-variable values pushed. -/
def gsInit : GState := ⟨65536, []⟩

/-- An opt-in (`Scoped`) backend for `tyNum`, never activated. -/
def scopedOnly : Backend := ⟨1, tyNum, [], -1⟩

/-- A dispatchable with a fallback (tag `99`) whose sole registration is the
inactive opt-in backend `scopedOnly` (implementation tag `7`). -/
def dispSingleScoped : Dispatchable := ⟨some 99, [(scopedOnly, 7)], [], 0, 0, 0⟩

/-- Two concrete types that cross-promote each other, producing two backends
that each claim to be strictly more specific than the other. -/
def tyCrossA : Ty := ⟨0⟩

def tyCrossB : Ty := ⟨1⟩

def backCrossA : Backend := ⟨1, tyCrossA, [tyCrossB], 1⟩

def backCrossB : Backend := ⟨2, tyCrossB, [tyCrossA], 2⟩

/-! ## C1 -/

/-- **C1**: the claim says an inactive `Scoped` (opt-in) backend that is the
only structurally matching candidate is never selected (the fallback must be
returned instead).  The code's single-candidate shortcut
(`len(matching_impls) == 1: res = matching_impls[0]`) skips the priority
check, so dispatch returns the disabled backend even though its effective
priority is the disabled sentinel `-1` and a fallback exists.  This theorem
evaluates the code at that failing input. -/
theorem C1_code_returns_inactive_scoped_singleton :
    scopedOnly.get_priority gsInit = -1 ∧
    (dispSingleScoped.dispatch worldFlat gsInit [tyNum]).2 =
      .ok (some (some scopedOnly, 7)) ∧
    (dispSingleScoped.dispatch worldFlat gsInit [tyNum]).2 ≠
      .ok (some (none, 99)) := by
  decide

/-! ## C10 -/

/-- **C10**: `register` is atomic on failure: called with a backend that is
already registered, it raises the duplicate-registration fault and returns
the `Dispatchable` completely unchanged (alternatives, cache and all three
counters) — the duplicate check precedes the append and the cache clear. -/
theorem C10_register_duplicate_atomic (d : Dispatchable) (b : Backend) (f : Nat)
    (h : ∃ alt ∈ d.alternatives, alt.1 = b) :
    d.register b f = (d, .error .duplicateRegistration) := by
  unfold Dispatchable.register
  rw [if_pos]
  · exact List.any_eq_true.mpr (by obtain ⟨alt, hm, he⟩ := h; exact ⟨alt, hm, decide_eq_true he⟩)

/-- Witness for C10 at a concrete duplicate registration. -/
theorem C10_register_duplicate_atomic_witness :
    dispSingleScoped.register scopedOnly 5 =
      (dispSingleScoped, .error .duplicateRegistration) :=
  C10_register_duplicate_atomic dispSingleScoped scopedOnly 5
    ⟨(scopedOnly, 7), by decide, rfl⟩

/-! ## C8 -/

/-- **C8**: if two different matching backends are each "more specific" than
the other (cyclic specificity), the less-than comparison never silently
returns — it raises the ambiguous-hierarchy fault in both directions — the
candidate-placement step raises instead of placing either candidate, and
`dispatch` over such a pair of matching backends raises
`AmbiguousHierarchyFault`. -/
theorem C8_mutual_specificity_faults (W : TypeWorld) (a b : Backend)
    (hab : a.more_specific W b = true) (hba : b.more_specific W a = true) :
    (blt W a b = .error .ambiguousHierarchy ∧
     blt W b a = .error .ambiguousHierarchy) ∧
    (∀ (rest : List (Backend × Nat)) (fa fb : Nat),
      insertCandidate W ((a, fa) :: rest) (b, fb) = .error .ambiguousHierarchy) ∧
    (∀ (gs : GState) (fb0 : Option Nat) (fa fb : Nat) (ts : List Ty),
      sorted_unique_types ts ≠ [] →
      a.matches W (sorted_unique_types ts) = true →
      b.matches W (sorted_unique_types ts) = true →
      ((Dispatchable.mk fb0 [(a, fa), (b, fb)] [] 0 0 0).dispatch W gs ts).2 =
        .error .ambiguousHierarchy) := by
  have hblt : blt W a b = .error .ambiguousHierarchy := by
    unfold blt
    rw [if_neg (by simp [hab]), if_pos hba]
  have hblt2 : blt W b a = .error .ambiguousHierarchy := by
    unfold blt
    rw [if_neg (by simp [hba]), if_pos hab]
  have hins : ∀ (rest : List (Backend × Nat)) (fa fb : Nat),
      insertCandidate W ((a, fa) :: rest) (b, fb) = .error .ambiguousHierarchy := by
    intro rest fa fb
    simp [insertCandidate, hblt]
  refine ⟨⟨hblt, hblt2⟩, hins, ?_⟩
  intro gs fb0 fa fb ts hts hma hmb
  unfold Dispatchable.dispatch
  rw [if_neg hts]
  have hbuild : buildMatching W [(a, fa), (b, fb)] (sorted_unique_types ts) =
      .error .ambiguousHierarchy := by
    simp [buildMatching, buildMatchingAux, hma, hmb, insertCandidate, hblt]
  simp [cachePop, hbuild]

/-- Witness for C8: the two cross-promoting concrete backends are each more
specific than the other, and comparing them faults. -/
theorem C8_mutual_specificity_faults_witness :
    blt worldFlat backCrossA backCrossB = .error .ambiguousHierarchy :=
  (C8_mutual_specificity_faults worldFlat backCrossA backCrossB
    (by decide) (by decide)).1.1

/-! ## C6 -/

/-- A stand-in concrete `Matrix` type. -/
def tyMatrix : Ty := ⟨0⟩

/-- A stand-in concrete `Scalar` type. -/
def tyScalar : Ty := ⟨1⟩

/-- A stand-in concrete unrelated type. -/
def tyOther : Ty := ⟨2⟩

/-- A backend with `dispatch_type = Matrix` and `promotable_types = {Scalar}`. -/
def backMatrix : Backend := ⟨1, tyMatrix, [tyScalar], 1⟩

/-- **C6**: `Backend.matches types` holds iff some type of the tuple is an
anchor for `dispatch_type` (identical to it when concrete, a recognized
subtype when abstract) and every remaining type is a known-subtype of
`dispatch_type` or of some promotable type; in particular a backend for
`Matrix` with promotable `{Scalar}` matches `(Matrix, Scalar)` but not
`(Matrix, OtherUnrelatedType)`. -/
theorem C6_matches_iff :
    (∀ (W : TypeWorld) (b : Backend) (L : List Ty),
      b.matches W L = true ↔
        ∃ a ∈ L,
          (if W.isAbstract b.dispatch_type = false then a = b.dispatch_type
            else W.issubclass a b.dispatch_type = true) ∧
          ∀ t ∈ L, t ≠ a →
            (is_strict_subclass W t b.dispatch_type = true ∨
              ∃ p ∈ b.promotable_types, is_strict_subclass W t p = true)) ∧
    (backMatrix.matches worldFlat [tyMatrix, tyScalar] = true ∧
      backMatrix.matches worldFlat [tyMatrix, tyOther] = false) := by
  refine ⟨?_, by decide⟩
  intro W b L
  unfold Backend.matches
  by_cases habs : W.isAbstract b.dispatch_type = false
  · simp only [if_pos habs]
    constructor
    · intro h
      cases hfind : L.find? (fun t => decide (t = b.dispatch_type)) with
      | none => rw [hfind] at h; exact absurd h (by simp)
      | some m =>
        rw [hfind] at h
        have hmem := List.mem_of_find?_eq_some hfind
        have hpm : m = b.dispatch_type := by
          have h2 := List.find?_some hfind
          simpa using h2
        refine ⟨m, hmem, hpm, ?_⟩
        intro t ht hne
        have h3 := (List.all_eq_true.mp h) t ht
        simp only [Bool.or_eq_true, decide_eq_true_eq, List.any_eq_true] at h3
        rcases h3 with ((h1 | h2) | h3)
        · exact absurd h1 hne
        · exact Or.inl h2
        · exact Or.inr (by simpa using h3)
    · rintro ⟨a, haL, hanchor, hrest⟩
      have hsome : (L.find? (fun t => decide (t = b.dispatch_type))).isSome := by
        refine List.find?_isSome.mpr ⟨a, haL, by simpa using hanchor⟩
      cases hfind : L.find? (fun t => decide (t = b.dispatch_type)) with
      | none => rw [hfind] at hsome; exact absurd hsome (by simp)
      | some m =>
        have hpm : m = b.dispatch_type := by
          have h2 := List.find?_some hfind
          simpa using h2
        refine List.all_eq_true.mpr ?_
        intro t ht
        simp only [Bool.or_eq_true, decide_eq_true_eq, List.any_eq_true]
        by_cases htm : t = m
        · exact Or.inl (Or.inl htm)
        · have hta : t ≠ a := by
            intro hta2; exact htm (by rw [hta2, hanchor, hpm])
          rcases hrest t ht hta with h1 | ⟨p, hp, hps⟩
          · exact Or.inl (Or.inr h1)
          · exact Or.inr ⟨p, hp, by simpa using hps⟩
  · simp only [if_neg habs]
    constructor
    · intro h
      cases hfind : L.find? (fun t => W.issubclass t b.dispatch_type) with
      | none => rw [hfind] at h; exact absurd h (by simp)
      | some m =>
        rw [hfind] at h
        have hmem := List.mem_of_find?_eq_some hfind
        have hpm := List.find?_some hfind
        refine ⟨m, hmem, hpm, ?_⟩
        intro t ht hne
        have h3 := (List.all_eq_true.mp h) t ht
        simp only [Bool.or_eq_true, decide_eq_true_eq, List.any_eq_true] at h3
        rcases h3 with ((h1 | h2) | h3)
        · exact absurd h1 hne
        · exact Or.inl h2
        · exact Or.inr (by simpa using h3)
    · rintro ⟨a, haL, hanchor, hrest⟩
      have hsome : (L.find? (fun t => W.issubclass t b.dispatch_type)).isSome := by
        exact List.find?_isSome.mpr ⟨a, haL, hanchor⟩
      cases hfind : L.find? (fun t => W.issubclass t b.dispatch_type) with
      | none => rw [hfind] at hsome; exact absurd hsome (by simp)
      | some m =>
        refine List.all_eq_true.mpr ?_
        intro t ht
        simp only [Bool.or_eq_true, decide_eq_true_eq, List.any_eq_true]
        by_cases htm : t = m
        · exact Or.inl (Or.inl htm)
        · by_cases hta : t = a
          · refine Or.inl (Or.inr ?_)
            unfold is_strict_subclass
            subst hta
            by_cases hdt : t = b.dispatch_type
            · rw [if_pos hdt]
            · rw [if_neg hdt, if_neg (by simpa using habs)]
              exact hanchor
          · rcases hrest t ht hta with h1 | ⟨p, hp, hps⟩
            · exact Or.inl (Or.inr h1)
            · exact Or.inr ⟨p, hp, by simpa using hps⟩

/-! ## C3 -/

/-- **C3**: for every pair of Fixed backends A (concrete `dispatch_type`
`dog`, no promotable types) and B (abstract `dispatch_type` `animal` with
`dog` a recognized subtype), registered on one Resolver in either order,
`dispatch((dog,))` returns A's `(backend, implementation)` pair, never
B's. -/
theorem C3_concrete_beats_abstract (W : TypeWorld) (dog animal : Ty)
    (bidA bidB fA fB : Nat) (pA pB : Int) (promB : List Ty) (fb : Option Nat)
    (gs : GState)
    (hconc : W.isAbstract dog = false) (habs : W.isAbstract animal = true)
    (hsub : W.issubclass dog animal = true) (hne : dog ≠ animal)
    (hpA : 0 ≤ pA) (hpB : 0 ≤ pB) :
    ((Dispatchable.mk fb [(⟨bidA, dog, [], pA⟩, fA), (⟨bidB, animal, promB, pB⟩, fB)]
        [] 0 0 0).dispatch W gs [dog]).2 =
      .ok (some (some ⟨bidA, dog, [], pA⟩, fA)) ∧
    ((Dispatchable.mk fb [(⟨bidB, animal, promB, pB⟩, fB), (⟨bidA, dog, [], pA⟩, fA)]
        [] 0 0 0).dispatch W gs [dog]).2 =
      .ok (some (some ⟨bidA, dog, [], pA⟩, fA)) := by
  have hkey : sorted_unique_types [dog] = [dog] := rfl
  have hmA : Backend.matches ⟨bidA, dog, [], pA⟩ W [dog] = true := by
    simp [Backend.matches, hconc]
  have hmB : Backend.matches ⟨bidB, animal, promB, pB⟩ W [dog] = true := by
    simp [Backend.matches, habs, hsub]
  have hmsAB : Backend.more_specific ⟨bidA, dog, [], pA⟩ W ⟨bidB, animal, promB, pB⟩ = true := by
    simp [Backend.more_specific, is_strict_subclass, hne, habs, hsub]
  have hmsBA : Backend.more_specific ⟨bidB, animal, promB, pB⟩ W ⟨bidA, dog, [], pA⟩ = false := by
    simp [Backend.more_specific, is_strict_subclass, hne, Ne.symm hne, hconc]
  have hblt1 : blt W ⟨bidA, dog, [], pA⟩ ⟨bidB, animal, promB, pB⟩ = .ok true := by
    simp [blt, hmsAB, hmsBA]
  have hblt0 : blt W ⟨bidB, animal, promB, pB⟩ ⟨bidA, dog, [], pA⟩ = .ok false := by
    simp [blt, hmsBA]
  constructor
  · unfold Dispatchable.dispatch
    rw [hkey]
    simp only [reduceIte, List.cons_ne_nil, cachePop]
    have hbuild : buildMatching W
        [(⟨bidA, dog, [], pA⟩, fA), (⟨bidB, animal, promB, pB⟩, fB)] [dog] =
        .ok [(⟨bidA, dog, [], pA⟩, fA)] := by
      simp [buildMatching, buildMatchingAux, hmA, hmB, insertCandidate, hblt1]
    simp [hbuild, Dispatchable.resolve]
  · unfold Dispatchable.dispatch
    rw [hkey]
    simp only [reduceIte, List.cons_ne_nil, cachePop]
    have hbuild : buildMatching W
        [(⟨bidB, animal, promB, pB⟩, fB), (⟨bidA, dog, [], pA⟩, fA)] [dog] =
        .ok [(⟨bidA, dog, [], pA⟩, fA)] := by
      simp [buildMatching, buildMatchingAux, hmA, hmB, insertCandidate, hblt1, hblt0]
    simp [hbuild, Dispatchable.resolve]

/-- A stand-in concrete `Dog` type. -/
def tyDog : Ty := ⟨0⟩

/-- A stand-in abstract `Animal` type. -/
def tyAnimal : Ty := ⟨1⟩

/-- A world in which `Animal` is an ABC and `Dog` its only subclass. -/
def worldDogAnimal : TypeWorld :=
  ⟨fun t => decide (t.id = 1), fun a b => decide (a.id = 0 ∧ b.id = 1)⟩

/-- Witness for C3 at a concrete `Dog`/`Animal` pair. -/
theorem C3_concrete_beats_abstract_witness :
    ((Dispatchable.mk none
        [(⟨1, tyDog, [], 1⟩, 10), (⟨2, tyAnimal, [], 2⟩, 20)]
        [] 0 0 0).dispatch worldDogAnimal gsInit [tyDog]).2 =
      .ok (some (some ⟨1, tyDog, [], 1⟩, 10)) :=
  (C3_concrete_beats_abstract worldDogAnimal tyDog tyAnimal 1 2 10 20 1 2 [] none
    gsInit (by decide) (by decide) (by decide) (by decide) (by decide) (by decide)).1

/-! ## C2 -/

/-- An abstract type `A` for the C2 counterexample. -/
def tyAbsA : Ty := ⟨0⟩

/-- An abstract type `B`, unrelated to `A`. -/
def tyAbsB : Ty := ⟨1⟩

/-- A concrete type that is a recognized subtype of both `tyAbsA` and
`tyAbsB`. -/
def tyConcX : Ty := ⟨2⟩

/-- A world with two unrelated ABCs `tyAbsA`, `tyAbsB` and one concrete
subclass `tyConcX` of both. -/
def worldTwoAbs : TypeWorld :=
  ⟨fun t => decide (t.id = 0 ∨ t.id = 1),
   fun a b => decide (a.id = 2 ∧ (b.id = 0 ∨ b.id = 1))⟩

/-- Fixed backend for `tyAbsA`, priority 1. -/
def backAbsA : Backend := ⟨1, tyAbsA, [], 1⟩

/-- Fixed backend for `tyAbsB`, priority 2. -/
def backAbsB : Backend := ⟨2, tyAbsB, [], 2⟩

/-- A resolver with both abstract-typed backends registered. -/
def dispTwoAbs : Dispatchable := ⟨none, [(backAbsA, 10), (backAbsB, 20)], [], 0, 0, 0⟩

/-- Counterexample to **C2** as stated: both backends structurally match
`(tyConcX,)`, both are enabled, their effective priorities are 1 and 2 —
no tie, so by the claim the strictly-lower-priority candidate must not
cause a fault and dispatch must return the priority-2 backend.  The code
raises the ambiguous-resolution `TypeError` anyway, because the scan raises
on any second enabled candidate with a different `dispatch_type`, with no
priority comparison. -/
theorem C2_counterexample_no_tie_still_faults :
    backAbsA.get_priority gsInit = 1 ∧ backAbsB.get_priority gsInit = 2 ∧
    backAbsA.dispatch_type ≠ backAbsB.dispatch_type ∧
    (dispTwoAbs.dispatch worldTwoAbs gsInit [tyConcX]).2 = .error .ambiguousResolution := by
  decide

/-- Error characterization of the priority scan with a current best `a`:
it raises exactly when a later enabled candidate has a dispatch type other
than `a`'s. -/
theorem scanPriority_some_error_iff (W : TypeWorld) (gs : GState) :
    ∀ (ml : List (Backend × Nat)) (a : Backend × Nat),
      scanPriority W gs ml (some a) = .error .ambiguousResolution ↔
        ∃ c ∈ ml, 0 ≤ c.1.get_priority gs ∧
          c.1.dispatch_type ≠ a.1.dispatch_type := by
  intro ml
  induction ml with
  | nil => intro a; simp [scanPriority]
  | cons c rest ih =>
    intro a
    by_cases hd : c.1.get_priority gs < 0
    · simp only [scanPriority, if_pos hd]
      rw [ih a]
      constructor
      · rintro ⟨x, hx, h1, h2⟩
        exact ⟨x, List.mem_cons_of_mem c hx, h1, h2⟩
      · rintro ⟨x, hx, h1, h2⟩
        rcases List.mem_cons.mp hx with rfl | hx2
        · omega
        · exact ⟨x, hx2, h1, h2⟩
    · by_cases hne : a.1.dispatch_type ≠ c.1.dispatch_type
      · simp only [scanPriority, if_neg hd, if_pos hne]
        constructor
        · intro _
          exact ⟨c, List.mem_cons_self c rest, by omega, Ne.symm hne⟩
        · intro _; trivial
      · have heq : a.1.dispatch_type = c.1.dispatch_type := not_ne_iff.mp hne
        by_cases hlt : a.1.get_priority gs < c.1.get_priority gs
        · simp only [scanPriority, if_neg hd, if_neg hne, if_pos hlt]
          rw [ih c]
          constructor
          · rintro ⟨x, hx, h1, h2⟩
            exact ⟨x, List.mem_cons_of_mem c hx, h1,
              fun hca => h2 (hca.trans heq)⟩
          · rintro ⟨x, hx, h1, h2⟩
            rcases List.mem_cons.mp hx with rfl | hx2
            · exact absurd heq.symm h2
            · exact ⟨x, hx2, h1, fun hcc => h2 (hcc.trans heq.symm)⟩
        · simp only [scanPriority, if_neg hd, if_neg hne, if_neg hlt]
          rw [ih a]
          constructor
          · rintro ⟨x, hx, h1, h2⟩
            exact ⟨x, List.mem_cons_of_mem c hx, h1, h2⟩
          · rintro ⟨x, hx, h1, h2⟩
            rcases List.mem_cons.mp hx with rfl | hx2
            · exact absurd heq.symm h2
            · exact ⟨x, hx2, h1, h2⟩

/-- Error characterization of the priority scan from scratch: it raises
exactly when two enabled candidates have different dispatch types —
independently of their relative priorities. -/
theorem scanPriority_none_error_iff (W : TypeWorld) (gs : GState) :
    ∀ (ml : List (Backend × Nat)),
      scanPriority W gs ml none = .error .ambiguousResolution ↔
        ∃ c ∈ ml, ∃ c2 ∈ ml, 0 ≤ c.1.get_priority gs ∧
          0 ≤ c2.1.get_priority gs ∧
          c.1.dispatch_type ≠ c2.1.dispatch_type := by
  intro ml
  induction ml with
  | nil => simp [scanPriority]
  | cons c rest ih =>
    by_cases hd : c.1.get_priority gs < 0
    · simp only [scanPriority, if_pos hd]
      rw [ih]
      constructor
      · rintro ⟨x, hx, y, hy, h1, h2, h3⟩
        exact ⟨x, List.mem_cons_of_mem c hx, y, List.mem_cons_of_mem c hy, h1, h2, h3⟩
      · rintro ⟨x, hx, y, hy, h1, h2, h3⟩
        rcases List.mem_cons.mp hx with rfl | hx2
        · omega
        · rcases List.mem_cons.mp hy with rfl | hy2
          · omega
          · exact ⟨x, hx2, y, hy2, h1, h2, h3⟩
    · simp only [scanPriority, if_neg hd]
      rw [scanPriority_some_error_iff W gs rest c]
      constructor
      · rintro ⟨x, hx, h1, h2⟩
        exact ⟨c, List.mem_cons_self c rest, x, List.mem_cons_of_mem c hx,
          by omega, h1, Ne.symm h2⟩
      · rintro ⟨x, hx, y, hy, h1, h2, h3⟩
        by_cases hxc : x.1.dispatch_type = c.1.dispatch_type
        · have hyc : y.1.dispatch_type ≠ c.1.dispatch_type :=
            fun hyc => h3 (hxc.trans hyc.symm)
          rcases List.mem_cons.mp hy with rfl | hy2
          · exact absurd rfl hyc
          · exact ⟨y, hy2, h2, hyc⟩
        · rcases List.mem_cons.mp hx with rfl | hx2
          · exact absurd rfl hxc
          · exact ⟨x, hx2, h1, hxc⟩

/-- The priority scan never loses a current best: starting from `some a` it
cannot produce `None`. -/
theorem scanPriority_some_ne_ok_none (W : TypeWorld) (gs : GState) :
    ∀ (ml : List (Backend × Nat)) (a : Backend × Nat),
      scanPriority W gs ml (some a) ≠ .ok none := by
  intro ml
  induction ml with
  | nil => intro a; simp [scanPriority]
  | cons c rest ih =>
    intro a
    by_cases hd : c.1.get_priority gs < 0
    · simp only [scanPriority, if_pos hd]; exact ih a
    · by_cases hne : a.1.dispatch_type ≠ c.1.dispatch_type
      · simp only [scanPriority, if_neg hd, if_pos hne]; simp
      · by_cases hlt : a.1.get_priority gs < c.1.get_priority gs
        · simp only [scanPriority, if_neg hd, if_neg hne, if_pos hlt]; exact ih c
        · simp only [scanPriority, if_neg hd, if_neg hne, if_neg hlt]; exact ih a

/-- The priority scan yields `None` exactly when every candidate is
disabled. -/
theorem scanPriority_ok_none_iff (W : TypeWorld) (gs : GState) :
    ∀ (ml : List (Backend × Nat)),
      scanPriority W gs ml none = .ok none ↔
        ∀ c ∈ ml, c.1.get_priority gs < 0 := by
  intro ml
  induction ml with
  | nil => simp [scanPriority]
  | cons c rest ih =>
    by_cases hd : c.1.get_priority gs < 0
    · simp only [scanPriority, if_pos hd]
      rw [ih]
      constructor
      · intro h x hx
        rcases List.mem_cons.mp hx with rfl | hx2
        · exact hd
        · exact h x hx2
      · intro h x hx; exact h x (List.mem_cons_of_mem c hx)
    · simp only [scanPriority, if_neg hd]
      constructor
      · intro h; exact absurd h (scanPriority_some_ne_ok_none W gs rest c)
      · intro h; exact absurd (h c (List.mem_cons_self c rest)) hd

/-- Maximality of the scan outcome relative to a current best `a`: the
result dominates `a` and every enabled candidate. -/
theorem scanPriority_some_max (W : TypeWorld) (gs : GState) :
    ∀ (ml : List (Backend × Nat)) (a r : Backend × Nat),
      scanPriority W gs ml (some a) = .ok (some r) →
        (r = a ∨ r ∈ ml) ∧ a.1.get_priority gs ≤ r.1.get_priority gs ∧
          ∀ c ∈ ml, 0 ≤ c.1.get_priority gs →
            c.1.get_priority gs ≤ r.1.get_priority gs := by
  intro ml
  induction ml with
  | nil =>
    intro a r h
    simp only [scanPriority] at h
    cases h
    exact ⟨Or.inl rfl, le_refl _, by simp⟩
  | cons c rest ih =>
    intro a r h
    by_cases hd : c.1.get_priority gs < 0
    · simp only [scanPriority, if_pos hd] at h
      obtain ⟨hm, hle, hall⟩ := ih a r h
      refine ⟨?_, hle, ?_⟩
      · rcases hm with h1 | h2
        · exact Or.inl h1
        · exact Or.inr (List.mem_cons_of_mem c h2)
      · intro x hx hen
        rcases List.mem_cons.mp hx with rfl | hx2
        · omega
        · exact hall x hx2 hen
    · by_cases hne : a.1.dispatch_type ≠ c.1.dispatch_type
      · simp only [scanPriority, if_neg hd, if_pos hne] at h
        cases h
      · by_cases hlt : a.1.get_priority gs < c.1.get_priority gs
        · simp only [scanPriority, if_neg hd, if_neg hne, if_pos hlt] at h
          obtain ⟨hm, hle, hall⟩ := ih c r h
          refine ⟨?_, by omega, ?_⟩
          · rcases hm with h1 | h2
            · exact Or.inr (h1 ▸ List.mem_cons_self c rest)
            · exact Or.inr (List.mem_cons_of_mem c h2)
          · intro x hx hen
            rcases List.mem_cons.mp hx with rfl | hx2
            · omega
            · exact hall x hx2 hen
        · simp only [scanPriority, if_neg hd, if_neg hne, if_neg hlt] at h
          obtain ⟨hm, hle, hall⟩ := ih a r h
          refine ⟨?_, hle, ?_⟩
          · rcases hm with h1 | h2
            · exact Or.inl h1
            · exact Or.inr (List.mem_cons_of_mem c h2)
          · intro x hx hen
            rcases List.mem_cons.mp hx with rfl | hx2
            · omega
            · exact hall x hx2 hen

/-- Maximality of the scan outcome from scratch: a non-`None` result is an
enabled candidate of the list with maximal effective priority. -/
theorem scanPriority_none_max (W : TypeWorld) (gs : GState) :
    ∀ (ml : List (Backend × Nat)) (r : Backend × Nat),
      scanPriority W gs ml none = .ok (some r) →
        r ∈ ml ∧ 0 ≤ r.1.get_priority gs ∧
          ∀ c ∈ ml, 0 ≤ c.1.get_priority gs →
            c.1.get_priority gs ≤ r.1.get_priority gs := by
  intro ml
  induction ml with
  | nil => intro r h; simp [scanPriority] at h
  | cons c rest ih =>
    intro r h
    by_cases hd : c.1.get_priority gs < 0
    · simp only [scanPriority, if_pos hd] at h
      obtain ⟨hm, hen, hall⟩ := ih r h
      refine ⟨List.mem_cons_of_mem c hm, hen, ?_⟩
      intro x hx hxen
      rcases List.mem_cons.mp hx with rfl | hx2
      · omega
      · exact hall x hx2 hxen
    · simp only [scanPriority, if_neg hd] at h
      obtain ⟨hm, hle, hall⟩ := scanPriority_some_max W gs rest c r h
      refine ⟨?_, by omega, ?_⟩
      · rcases hm with h1 | h2
        · exact h1 ▸ List.mem_cons_self c rest
        · exact List.mem_cons_of_mem c h2
      · intro x hx hxen
        rcases List.mem_cons.mp hx with rfl | hx2
        · omega
        · exact hall x hx2 hxen

/-- **C2** (amended): in the multi-candidate recompute, the priority scan
skips disabled candidates and returns an enabled candidate of maximal
effective priority; it raises `AmbiguousResolutionFault` exactly when the
enabled candidates contain two with differing `dispatch_type` — regardless
of their relative priorities (so an enabled lower-priority candidate of a
different dispatch type does cause the fault, contrary to the original
claim's "tie"-only reading); it yields no candidate exactly when every
candidate is disabled; and the resolution tail of `dispatch` propagates the
scan's fault whenever the candidate list has more than one entry. -/
theorem C2_amended_priority_scan (W : TypeWorld) (gs : GState)
    (ml : List (Backend × Nat)) :
    (scanPriority W gs ml none = .error .ambiguousResolution ↔
      ∃ c ∈ ml, ∃ c2 ∈ ml, 0 ≤ c.1.get_priority gs ∧
        0 ≤ c2.1.get_priority gs ∧ c.1.dispatch_type ≠ c2.1.dispatch_type) ∧
    (∀ r, scanPriority W gs ml none = .ok (some r) →
      r ∈ ml ∧ 0 ≤ r.1.get_priority gs ∧
        ∀ c ∈ ml, 0 ≤ c.1.get_priority gs →
          c.1.get_priority gs ≤ r.1.get_priority gs) ∧
    (scanPriority W gs ml none = .ok none ↔
      ∀ c ∈ ml, c.1.get_priority gs < 0) ∧
    (∀ (d : Dispatchable) (k : List Ty) (f : Fault), 1 < ml.length →
      scanPriority W gs ml none = .error f →
        (d.resolve W gs k ml).2 = .error f) := by
  refine ⟨scanPriority_none_error_iff W gs ml,
    fun r => scanPriority_none_max W gs ml r,
    scanPriority_ok_none_iff W gs ml, ?_⟩
  intro d k f hlen hscan
  match ml, hlen with
  | x :: y :: rest, _ =>
    simp only [Dispatchable.resolve, hscan]

/-! ## Cache/resolution infrastructure for the determinism and cache claims -/

/-- The outcome component of the resolution tail as a pure function: it
depends only on the fallback, the candidate list and the global state (the
cache write of `Dispatchable.resolve` does not feed back into it, see
`resolve_snd`). -/
def resolveRes (W : TypeWorld) (gs : GState) (fb : Option Nat)
    (ml : List (Backend × Nat)) : Except Fault (Option DispatchRes) :=
  match ml with
  | [] =>
    match fb with
    | some f => .ok (some (none, f))
    | none => .error .noImplementation
  | [c] => .ok (some (some c.1, c.2))
  | _ :: _ :: _ =>
    match scanPriority W gs ml none with
    | .error e => .error e
    | .ok r =>
      match (match r with
        | some c => some ((some c.1 : Option Backend), c.2)
        | none => fb.map (fun f => ((none : Option Backend), f))) with
      | some r2 => .ok (some r2)
      | none => .error .noImplementation

/-- The outcome of a dispatch that sees no cache entry for its key: the
composition of canonicalization, candidate construction and resolution.
Every dispatch outcome equals this (see `dispatch_result`). -/
def coldDispatch (W : TypeWorld) (gs : GState) (fb : Option Nat)
    (alts : List (Backend × Nat)) (ts : List Ty) :
    Except Fault (Option DispatchRes) :=
  if sorted_unique_types ts = [] then
    match fb with
    | some f => .ok (some (none, f))
    | none => .error .noFallbackUntyped
  else
    match buildMatching W alts (sorted_unique_types ts) with
    | .error e => .error e
    | .ok ml => resolveRes W gs fb ml

/-- The outcome of `Dispatchable.resolve` ignores the cache it writes. -/
theorem resolve_snd (d : Dispatchable) (W : TypeWorld) (gs : GState)
    (k : List Ty) (ml : List (Backend × Nat)) :
    (d.resolve W gs k ml).2 = resolveRes W gs d.fallback ml := by
  match ml with
  | [] =>
    cases hfb : d.fallback <;> simp [Dispatchable.resolve, resolveRes, hfb]
  | [c] => rfl
  | x :: y :: rest =>
    simp only [Dispatchable.resolve, resolveRes]
    cases hscan : scanPriority W gs (x :: y :: rest) none with
    | error e => simp
    | ok r =>
      cases r with
      | some c => simp
      | none => cases hfb : d.fallback <;> simp [hfb, Option.map]

/-- `Dispatchable.resolve` changes nothing but the cache. -/
theorem resolve_fields (d : Dispatchable) (W : TypeWorld) (gs : GState)
    (k : List Ty) (ml : List (Backend × Nat)) :
    (d.resolve W gs k ml).1.fallback = d.fallback ∧
    (d.resolve W gs k ml).1.alternatives = d.alternatives := by
  match ml with
  | [] => cases hfb : d.fallback <;> simp [Dispatchable.resolve, hfb]
  | [c] => exact ⟨rfl, rfl⟩
  | x :: y :: rest =>
    simp only [Dispatchable.resolve]
    cases hscan : scanPriority W gs (x :: y :: rest) none with
    | error e => exact ⟨rfl, rfl⟩
    | ok r =>
      cases r with
      | some c => exact ⟨rfl, rfl⟩
      | none => cases hfb : d.fallback <;> simp [hfb, Option.map]

/-- The cache after `Dispatchable.resolve`: unchanged, or the stamped
outcome written at the dispatched key. -/
theorem resolve_cache (d : Dispatchable) (W : TypeWorld) (gs : GState)
    (k : List Ty) (ml : List (Backend × Nat)) :
    (d.resolve W gs k ml).1.cache = d.cache ∨
      ∃ r2, (d.resolve W gs k ml).2 = .ok (some r2) ∧
        resolveRes W gs d.fallback ml = .ok (some r2) ∧
        (d.resolve W gs k ml).1.cache =
          cacheSet d.cache k ⟨ml, gs.max_priority, some r2⟩ := by
  match ml with
  | [] => left; cases hfb : d.fallback <;> simp [Dispatchable.resolve, hfb]
  | [c] => left; rfl
  | x :: y :: rest =>
    simp only [Dispatchable.resolve]
    cases hscan : scanPriority W gs (x :: y :: rest) none with
    | error e => left; simp
    | ok r =>
      cases r with
      | some c =>
        right
        refine ⟨(some c.1, c.2), by simp, ?_, by simp⟩
        simp [resolveRes, hscan]
      | none =>
        cases hfb : d.fallback with
        | none => left; simp [hfb, Option.map]
        | some f =>
          right
          refine ⟨(none, f), by simp [hfb, Option.map], ?_, by simp [hfb, Option.map]⟩
          simp [resolveRes, hscan, hfb, Option.map]

/-- `cachePop` finding an entry means that entry is in the cache. -/
theorem cachePop_some_mem :
    ∀ (c : List (List Ty × CacheEntry)) (k : List Ty) (e : CacheEntry)
      (rest : List (List Ty × CacheEntry)),
      cachePop c k = (some e, rest) → (k, e) ∈ c := by
  intro c
  induction c with
  | nil => intro k e rest h; simp [cachePop] at h
  | cons p t ih =>
    intro k e rest h
    obtain ⟨pk, pe⟩ := p
    simp only [cachePop] at h
    by_cases hk : pk = k
    · rw [if_pos hk] at h
      injection h with h1 h2
      injection h1 with h1
      subst h1 hk
      exact List.mem_cons_self _ _
    · rw [if_neg hk] at h
      injection h with h1 h2
      have h3 : cachePop t k = (some e, (cachePop t k).2) := by rw [← h1]
      exact List.mem_cons_of_mem _ (ih k e _ h3)

/-- Entries surviving a `cachePop` were in the cache. -/
theorem cachePop_rest_sub :
    ∀ (c : List (List Ty × CacheEntry)) (k : List Ty)
      (x : List Ty × CacheEntry), x ∈ (cachePop c k).2 → x ∈ c := by
  intro c
  induction c with
  | nil => intro k x hx; simp [cachePop] at hx
  | cons p t ih =>
    intro k x hx
    obtain ⟨pk, pe⟩ := p
    simp only [cachePop] at hx
    by_cases hk : pk = k
    · rw [if_pos hk] at hx
      exact List.mem_cons_of_mem _ hx
    · rw [if_neg hk] at hx
      simp only [] at hx
      rcases List.mem_cons.mp hx with rfl | hx2
      · exact List.mem_cons_self _ _
      · exact List.mem_cons_of_mem _ (ih k x hx2)

/-- A successful `cachePop` shrinks the cache by exactly one entry. -/
theorem cachePop_some_length :
    ∀ (c : List (List Ty × CacheEntry)) (k : List Ty) (e : CacheEntry)
      (rest : List (List Ty × CacheEntry)),
      cachePop c k = (some e, rest) → c.length = rest.length + 1 := by
  intro c
  induction c with
  | nil => intro k e rest h; simp [cachePop] at h
  | cons p t ih =>
    intro k e rest h
    obtain ⟨pk, pe⟩ := p
    simp only [cachePop] at h
    by_cases hk : pk = k
    · rw [if_pos hk] at h
      injection h with h1 h2
      subst h2
      simp
    · rw [if_neg hk] at h
      injection h with h1 h2
      have h3 : cachePop t k = (some e, (cachePop t k).2) := by rw [← h1]
      have h4 := ih k e _ h3
      subst h2
      simp [h4]

/-- Membership after a `cacheSet`: the written entry or a pre-existing one. -/
theorem cacheSet_mem :
    ∀ (c : List (List Ty × CacheEntry)) (k : List Ty) (e : CacheEntry)
      (x : List Ty × CacheEntry), x ∈ cacheSet c k e → x = (k, e) ∨ x ∈ c := by
  intro c
  induction c with
  | nil => intro k e x hx; simp [cacheSet] at hx; exact Or.inl hx
  | cons p t ih =>
    intro k e x hx
    obtain ⟨pk, pe⟩ := p
    simp only [cacheSet] at hx
    by_cases hk : pk = k
    · rw [if_pos hk] at hx
      rcases List.mem_cons.mp hx with rfl | hx2
      · exact Or.inl rfl
      · exact Or.inr (List.mem_cons_of_mem _ hx2)
    · rw [if_neg hk] at hx
      rcases List.mem_cons.mp hx with rfl | hx2
      · exact Or.inr (List.mem_cons_self _ _)
      · rcases ih k e x hx2 with h1 | h2
        · exact Or.inl h1
        · exact Or.inr (List.mem_cons_of_mem _ h2)

/-- `cacheSet` at a key already present keeps the key sequence unchanged. -/
theorem cacheSet_keys_of_mem :
    ∀ (c : List (List Ty × CacheEntry)) (k : List Ty) (e : CacheEntry),
      k ∈ c.map Prod.fst → (cacheSet c k e).map Prod.fst = c.map Prod.fst := by
  intro c
  induction c with
  | nil => intro k e hk; simp at hk
  | cons p t ih =>
    intro k e hk
    obtain ⟨pk, pe⟩ := p
    simp only [cacheSet]
    by_cases hpk : pk = k
    · rw [if_pos hpk]
      simp [hpk]
    · rw [if_neg hpk]
      have hk2 : k ∈ t.map Prod.fst := by
        rcases List.mem_map.mp hk with ⟨x, hx, hxk⟩
        rcases List.mem_cons.mp hx with rfl | hx2
        · exact absurd hxk hpk
        · exact List.mem_map.mpr ⟨x, hx2, hxk⟩
      simp [ih k e hk2]

/-- `cacheSet` at a key already present keeps the cache size unchanged. -/
theorem cacheSet_length_of_mem (c : List (List Ty × CacheEntry)) (k : List Ty)
    (e : CacheEntry) (hk : k ∈ c.map Prod.fst) :
    (cacheSet c k e).length = c.length := by
  have h := cacheSet_keys_of_mem c k e hk
  have h1 : (cacheSet c k e).length = ((cacheSet c k e).map Prod.fst).length := by simp
  rw [h1, h]; simp

/-- Cache consistency: every cached candidate list is the one
`buildMatching` computes from the current alternatives, and every stored
pick whose stamp is current is the one the resolution tail recomputes.
This invariant holds for a cleared cache, and `dispatch` preserves it (see
`dispatch_spec`). -/
def Consistent (W : TypeWorld) (gs : GState) (d : Dispatchable) : Prop :=
  ∀ k e, (k, e) ∈ d.cache →
    buildMatching W d.alternatives k = .ok e.matching ∧
    (1 < e.matching.length → e.stamp = gs.max_priority →
      resolveRes W gs d.fallback e.matching = .ok e.stored)

/-- A dispatchable with an empty cache is consistent. -/
theorem consistent_of_empty (W : TypeWorld) (gs : GState) (d : Dispatchable)
    (h : d.cache = []) : Consistent W gs d := by
  intro k e hke
  rw [h] at hke
  cases hke

/-- Consistency restricts to any state with the same registrations and a
subset of the cache entries. -/
theorem consistent_subset (W : TypeWorld) (gs : GState) (d d' : Dispatchable)
    (hfb : d'.fallback = d.fallback) (halt : d'.alternatives = d.alternatives)
    (hsub : ∀ x ∈ d'.cache, x ∈ d.cache) (hcons : Consistent W gs d) :
    Consistent W gs d' := by
  intro k e hke
  obtain ⟨h1, h2⟩ := hcons k e (hsub _ hke)
  exact ⟨by rw [halt]; exact h1, fun hl hs => by rw [hfb]; exact h2 hl hs⟩

/-- Consistency extends by one new entry that itself satisfies both
clauses. -/
theorem consistent_insert (W : TypeWorld) (gs : GState) (d d' : Dispatchable)
    (k : List Ty) (e : CacheEntry)
    (hfb : d'.fallback = d.fallback) (halt : d'.alternatives = d.alternatives)
    (hsub : ∀ x ∈ d'.cache, x = (k, e) ∨ x ∈ d.cache)
    (hcons : Consistent W gs d)
    (hbuild : buildMatching W d.alternatives k = .ok e.matching)
    (hstored : 1 < e.matching.length → e.stamp = gs.max_priority →
      resolveRes W gs d.fallback e.matching = .ok e.stored) :
    Consistent W gs d' := by
  intro k2 e2 hke
  rcases hsub _ hke with heq | hmem
  · injection heq with hk2 he2
    subst hk2
    subst he2
    exact ⟨by rw [halt]; exact hbuild,
      fun hl hs => by rw [hfb]; exact hstored hl hs⟩
  · obtain ⟨h1, h2⟩ := hcons _ _ hmem
    exact ⟨by rw [halt]; exact h1, fun hl hs => by rw [hfb]; exact h2 hl hs⟩

/-- `dispatch` on an empty canonical key: fallback or the untyped fault,
no state change. -/
theorem dispatch_eq_empty (W : TypeWorld) (gs : GState) (d : Dispatchable)
    (ts : List Ty) (hempty : sorted_unique_types ts = []) :
    d.dispatch W gs ts =
      (d, match d.fallback with
        | some f => .ok (some (none, f))
        | none => .error .noFallbackUntyped) := by
  cases hfb : d.fallback <;> simp [Dispatchable.dispatch, hempty, hfb]

/-- `dispatch` on a fresh-stamped multi-candidate cache hit returns the
stored pick after bumping the entry to most-recently-used. -/
theorem dispatch_eq_hit_valid (W : TypeWorld) (gs : GState) (d : Dispatchable)
    (ts : List Ty) (e : CacheEntry) (rest : List (List Ty × CacheEntry))
    (hempty : sorted_unique_types ts ≠ [])
    (hpop : cachePop d.cache (sorted_unique_types ts) = (some e, rest))
    (hlen : 1 < e.matching.length) (hstamp : gs.max_priority = e.stamp) :
    d.dispatch W gs ts =
      ({ d with
          cache := rest ++ [(sorted_unique_types ts, e)]
          c_hits := d.c_hits + 1 }, .ok e.stored) := by
  simp only [Dispatchable.dispatch, if_neg hempty, hpop, if_pos hlen, if_pos hstamp]

/-- `dispatch` on a stale multi-candidate cache hit recomputes through the
resolution tail, counting a priority miss. -/
theorem dispatch_eq_hit_stale (W : TypeWorld) (gs : GState) (d : Dispatchable)
    (ts : List Ty) (e : CacheEntry) (rest : List (List Ty × CacheEntry))
    (hempty : sorted_unique_types ts ≠ [])
    (hpop : cachePop d.cache (sorted_unique_types ts) = (some e, rest))
    (hlen : 1 < e.matching.length) (hstamp : gs.max_priority ≠ e.stamp) :
    d.dispatch W gs ts =
      Dispatchable.resolve
        { d with
            cache := rest ++ [(sorted_unique_types ts, e)]
            c_hits := d.c_hits + 1
            c_priority_misses := d.c_priority_misses + 1 }
        W gs (sorted_unique_types ts) e.matching := by
  simp only [Dispatchable.dispatch, if_neg hempty, hpop, if_pos hlen, if_neg hstamp]

/-- `dispatch` on a short (at most one candidate) cache hit goes straight
to the resolution tail. -/
theorem dispatch_eq_hit_short (W : TypeWorld) (gs : GState) (d : Dispatchable)
    (ts : List Ty) (e : CacheEntry) (rest : List (List Ty × CacheEntry))
    (hempty : sorted_unique_types ts ≠ [])
    (hpop : cachePop d.cache (sorted_unique_types ts) = (some e, rest))
    (hlen : ¬1 < e.matching.length) :
    d.dispatch W gs ts =
      Dispatchable.resolve
        { d with
            cache := rest ++ [(sorted_unique_types ts, e)]
            c_hits := d.c_hits + 1 }
        W gs (sorted_unique_types ts) e.matching := by
  simp only [Dispatchable.dispatch, if_neg hempty, hpop, if_neg hlen]

/-- `dispatch` on a cache miss whose candidate construction faults raises
that fault, leaving the cache untouched. -/
theorem dispatch_eq_miss_error (W : TypeWorld) (gs : GState) (d : Dispatchable)
    (ts : List Ty) (er : Fault)
    (hempty : sorted_unique_types ts ≠ [])
    (hpop : (cachePop d.cache (sorted_unique_types ts)).1 = none)
    (hbuild : buildMatching W d.alternatives (sorted_unique_types ts) = .error er) :
    d.dispatch W gs ts = ({ d with c_misses := d.c_misses + 1 }, .error er) := by
  rcases hp : cachePop d.cache (sorted_unique_types ts) with ⟨co, rest2⟩
  rw [hp] at hpop
  simp only at hpop
  subst hpop
  simp only [Dispatchable.dispatch, if_neg hempty, hp, hbuild]

/-- `dispatch` on a cache miss: build the candidate list, evict the oldest
entry of a full cache, append the placeholder entry, and resolve. -/
theorem dispatch_eq_miss_ok (W : TypeWorld) (gs : GState) (d : Dispatchable)
    (ts : List Ty) (ml : List (Backend × Nat))
    (hempty : sorted_unique_types ts ≠ [])
    (hpop : (cachePop d.cache (sorted_unique_types ts)).1 = none)
    (hbuild : buildMatching W d.alternatives (sorted_unique_types ts) = .ok ml) :
    d.dispatch W gs ts =
      Dispatchable.resolve
        { d with
            c_misses := d.c_misses + 1
            cache := (if 20 ≤ d.cache.length then d.cache.tail else d.cache)
              ++ [(sorted_unique_types ts, ⟨ml, -1, none⟩)] }
        W gs (sorted_unique_types ts) ml := by
  rcases hp : cachePop d.cache (sorted_unique_types ts) with ⟨co, rest2⟩
  rw [hp] at hpop
  simp only at hpop
  subst hpop
  simp only [Dispatchable.dispatch, if_neg hempty, hp, hbuild]

/-- Master dispatch lemma: with a non-negative `_max_priority` and a
consistent cache, the outcome of `dispatch` is the cold outcome of the
current registrations (the cache tiers are answer-transparent), the
registrations survive unchanged, and the mutated state is consistent
again. -/
theorem dispatch_spec (W : TypeWorld) (gs : GState) (d : Dispatchable)
    (ts : List Ty) (hmax : 0 ≤ gs.max_priority) (hcons : Consistent W gs d) :
    (d.dispatch W gs ts).2 = coldDispatch W gs d.fallback d.alternatives ts ∧
    (d.dispatch W gs ts).1.fallback = d.fallback ∧
    (d.dispatch W gs ts).1.alternatives = d.alternatives ∧
    Consistent W gs (d.dispatch W gs ts).1 := by
  by_cases hempty : sorted_unique_types ts = []
  · rw [dispatch_eq_empty W gs d ts hempty]
    refine ⟨?_, rfl, rfl, hcons⟩
    cases hfb : d.fallback <;> simp [coldDispatch, hempty, hfb]
  · rcases hpop : cachePop d.cache (sorted_unique_types ts) with ⟨co, rest⟩
    cases co with
    | some e =>
      have hmem : (sorted_unique_types ts, e) ∈ d.cache :=
        cachePop_some_mem _ _ _ _ hpop
      obtain ⟨hbuild, hstored⟩ := hcons _ _ hmem
      have hcold : coldDispatch W gs d.fallback d.alternatives ts =
          resolveRes W gs d.fallback e.matching := by
        simp only [coldDispatch, if_neg hempty, hbuild]
      have hsub1 : ∀ x ∈ rest ++ [(sorted_unique_types ts, e)], x ∈ d.cache := by
        intro x hx
        rcases List.mem_append.mp hx with h1 | h2
        · refine cachePop_rest_sub d.cache (sorted_unique_types ts) x ?_
          rw [hpop]
          exact h1
        · rw [List.mem_singleton.mp h2]
          exact hmem
      by_cases hlen : 1 < e.matching.length
      · by_cases hstamp : gs.max_priority = e.stamp
        · rw [dispatch_eq_hit_valid W gs d ts e rest hempty hpop hlen hstamp]
          refine ⟨?_, rfl, rfl, ?_⟩
          · rw [hcold]
            exact (hstored hlen hstamp.symm).symm
          · exact consistent_subset W gs d _ rfl rfl hsub1 hcons
        · rw [dispatch_eq_hit_stale W gs d ts e rest hempty hpop hlen hstamp]
          refine ⟨?_, ?_, ?_, ?_⟩
          · rw [resolve_snd, hcold]
          · rw [(resolve_fields _ W gs _ _).1]
          · rw [(resolve_fields _ W gs _ _).2]
          · rcases resolve_cache
                { d with
                    cache := rest ++ [(sorted_unique_types ts, e)]
                    c_hits := d.c_hits + 1
                    c_priority_misses := d.c_priority_misses + 1 }
                W gs (sorted_unique_types ts) e.matching with hc | ⟨r2, hr1, hr2, hc⟩
            · refine consistent_subset W gs d _
                ((resolve_fields _ W gs _ _).1) ((resolve_fields _ W gs _ _).2)
                ?_ hcons
              intro x hx
              rw [hc] at hx
              exact hsub1 x hx
            · refine consistent_insert W gs d _ (sorted_unique_types ts)
                ⟨e.matching, gs.max_priority, some r2⟩
                ((resolve_fields _ W gs _ _).1) ((resolve_fields _ W gs _ _).2)
                ?_ hcons hbuild ?_
              · intro x hx
                rw [hc] at hx
                rcases cacheSet_mem _ _ _ _ hx with h1 | h2
                · exact Or.inl h1
                · exact Or.inr (hsub1 x h2)
              · intro _ _
                exact hr2
      · rw [dispatch_eq_hit_short W gs d ts e rest hempty hpop hlen]
        refine ⟨?_, ?_, ?_, ?_⟩
        · rw [resolve_snd, hcold]
        · rw [(resolve_fields _ W gs _ _).1]
        · rw [(resolve_fields _ W gs _ _).2]
        · rcases resolve_cache
              { d with
                  cache := rest ++ [(sorted_unique_types ts, e)]
                  c_hits := d.c_hits + 1 }
              W gs (sorted_unique_types ts) e.matching with hc | ⟨r2, hr1, hr2, hc⟩
          · refine consistent_subset W gs d _
              ((resolve_fields _ W gs _ _).1) ((resolve_fields _ W gs _ _).2)
              ?_ hcons
            intro x hx
            rw [hc] at hx
            exact hsub1 x hx
          · refine consistent_insert W gs d _ (sorted_unique_types ts)
              ⟨e.matching, gs.max_priority, some r2⟩
              ((resolve_fields _ W gs _ _).1) ((resolve_fields _ W gs _ _).2)
              ?_ hcons hbuild ?_
            · intro x hx
              rw [hc] at hx
              rcases cacheSet_mem _ _ _ _ hx with h1 | h2
              · exact Or.inl h1
              · exact Or.inr (hsub1 x h2)
            · intro _ _
              exact hr2
    | none =>
      have hpop1 : (cachePop d.cache (sorted_unique_types ts)).1 = none := by
        rw [hpop]
      cases hbuild : buildMatching W d.alternatives (sorted_unique_types ts) with
      | error er =>
        rw [dispatch_eq_miss_error W gs d ts er hempty hpop1 hbuild]
        refine ⟨?_, rfl, rfl, ?_⟩
        · simp only [coldDispatch, if_neg hempty, hbuild]
        · exact consistent_subset W gs d _ rfl rfl (fun x hx => hx) hcons
      | ok ml =>
        have hconsmid : Consistent W gs
            { d with
                c_misses := d.c_misses + 1
                cache := (if 20 ≤ d.cache.length then d.cache.tail else d.cache)
                  ++ [(sorted_unique_types ts, ⟨ml, -1, none⟩)] } := by
          refine consistent_insert W gs d _ (sorted_unique_types ts)
            ⟨ml, -1, none⟩ rfl rfl ?_ hcons hbuild ?_
          · intro x hx
            rcases List.mem_append.mp hx with h1 | h2
            · right
              by_cases h20 : 20 ≤ d.cache.length
              · rw [if_pos h20] at h1
                exact (List.tail_sublist d.cache).mem h1
              · rw [if_neg h20] at h1
                exact h1
            · exact Or.inl (List.mem_singleton.mp h2)
          · intro _ hs
            exfalso
            simp only [] at hs
            omega
        rw [dispatch_eq_miss_ok W gs d ts ml hempty hpop1 hbuild]
        refine ⟨?_, ?_, ?_, ?_⟩
        · rw [resolve_snd]
          simp only [coldDispatch, if_neg hempty, hbuild]
        · rw [(resolve_fields _ W gs _ _).1]
        · rw [(resolve_fields _ W gs _ _).2]
        · rcases resolve_cache
              { d with
                  c_misses := d.c_misses + 1
                  cache := (if 20 ≤ d.cache.length then d.cache.tail else d.cache)
                    ++ [(sorted_unique_types ts, ⟨ml, -1, none⟩)] }
              W gs (sorted_unique_types ts) ml with hc | ⟨r2, hr1, hr2, hc⟩
          · refine consistent_subset W gs _ _
              ((resolve_fields _ W gs _ _).1) ((resolve_fields _ W gs _ _).2)
              ?_ hconsmid
            intro x hx
            rw [hc] at hx
            exact hx
          · refine consistent_insert W gs
              { d with
                  c_misses := d.c_misses + 1
                  cache := (if 20 ≤ d.cache.length then d.cache.tail else d.cache)
                    ++ [(sorted_unique_types ts, ⟨ml, -1, none⟩)] }
              _ (sorted_unique_types ts)
              ⟨ml, gs.max_priority, some r2⟩
              ((resolve_fields _ W gs _ _).1) ((resolve_fields _ W gs _ _).2)
              ?_ hconsmid hbuild ?_
            · intro x hx
              rw [hc] at hx
              rcases cacheSet_mem _ _ _ _ hx with h1 | h2
              · exact Or.inl h1
              · exact Or.inr h2
            · intro _ _
              exact hr2

/-! ## C5 -/

/-- **C5**: for fixed registrations and fixed activation state, `dispatch`
depends on the type tuple only through its canonical key; two consecutive
calls with the same types return the identical outcome; and interposing a
full cache clear between the two calls never changes the answer (warm and
cold runs agree). -/
theorem C5_dispatch_pure (W : TypeWorld) (gs : GState) (d : Dispatchable)
    (ts ts2 : List Ty) (hmax : 0 ≤ gs.max_priority) (hcons : Consistent W gs d)
    (hkey : sorted_unique_types ts = sorted_unique_types ts2) :
    (d.dispatch W gs ts).2 = (d.dispatch W gs ts2).2 ∧
    ((d.dispatch W gs ts).1.dispatch W gs ts).2 = (d.dispatch W gs ts).2 ∧
    (((d.dispatch W gs ts).1.clear_cache).dispatch W gs ts).2 =
      (d.dispatch W gs ts).2 := by
  obtain ⟨hres, hfb, halt, hcons2⟩ := dispatch_spec W gs d ts hmax hcons
  obtain ⟨hres2, _, _, _⟩ := dispatch_spec W gs d ts2 hmax hcons
  have hcoldkey : coldDispatch W gs d.fallback d.alternatives ts =
      coldDispatch W gs d.fallback d.alternatives ts2 := by
    unfold coldDispatch
    rw [hkey]
  refine ⟨?_, ?_, ?_⟩
  · rw [hres, hres2, hcoldkey]
  · obtain ⟨hres3, _, _, _⟩ :=
      dispatch_spec W gs ((d.dispatch W gs ts).1) ts hmax hcons2
    rw [hres3, hres, hfb, halt]
  · have hcons3 : Consistent W gs ((d.dispatch W gs ts).1.clear_cache) :=
      consistent_of_empty W gs _ rfl
    obtain ⟨hres4, _, _, _⟩ :=
      dispatch_spec W gs ((d.dispatch W gs ts).1.clear_cache) ts hmax hcons3
    rw [hres4, hres]
    show coldDispatch W gs ((d.dispatch W gs ts).1).fallback
        ((d.dispatch W gs ts).1).alternatives ts =
      coldDispatch W gs d.fallback d.alternatives ts
    rw [hfb, halt]

/-- Witness for C5 on a concrete resolver (empty cache is consistent). -/
theorem C5_dispatch_pure_witness :
    ((dispSingleScoped.dispatch worldFlat gsInit [tyNum]).1.dispatch
        worldFlat gsInit [tyNum]).2 =
      (dispSingleScoped.dispatch worldFlat gsInit [tyNum]).2 :=
  (C5_dispatch_pure worldFlat gsInit dispSingleScoped [tyNum] [tyNum]
    (by decide) (consistent_of_empty worldFlat gsInit dispSingleScoped rfl)
    rfl).2.1

/-! ## C7 -/

/-- The candidate-construction loop keeps its accumulator untouched when no
alternative matches. -/
theorem buildMatchingAux_nomatch (W : TypeWorld) (typet : List Ty) :
    ∀ (alts : List (Backend × Nat)) (ml : List (Backend × Nat)),
      (∀ bf ∈ alts, bf.1.matches W typet = false) →
      buildMatchingAux W typet ml alts = .ok ml := by
  intro alts
  induction alts with
  | nil => intro ml h; rfl
  | cons bf rest ih =>
    intro ml h
    have hbf : bf.1.matches W typet = false := h bf (List.mem_cons_self _ _)
    simp only [buildMatchingAux]
    rw [if_neg (by simp [hbf])]
    exact ih ml (fun x hx => h x (List.mem_cons_of_mem _ hx))

/-- No matching alternative: the candidate list is empty. -/
theorem buildMatching_nomatch (W : TypeWorld) (alts : List (Backend × Nat))
    (typet : List Ty) (h : ∀ bf ∈ alts, bf.1.matches W typet = false) :
    buildMatching W alts typet = .ok [] :=
  buildMatchingAux_nomatch W typet alts [] h

/-- **C7**: when the type tuple canonicalizes to empty, or no registered
backend structurally matches it, `dispatch` returns `(None, fallback)` when
a fallback is registered and raises the corresponding no-implementation
`TypeError` otherwise (the untyped-call message for the empty case, the
no-implementation message for the unmatched case); no other outcome is
possible. -/
theorem C7_empty_or_no_match (W : TypeWorld) (gs : GState) (d : Dispatchable)
    (ts : List Ty) (hmax : 0 ≤ gs.max_priority) (hcons : Consistent W gs d)
    (h : sorted_unique_types ts = [] ∨
      ∀ bf ∈ d.alternatives, bf.1.matches W (sorted_unique_types ts) = false) :
    (d.dispatch W gs ts).2 =
      match d.fallback with
      | some f => .ok (some (none, f))
      | none => .error (if sorted_unique_types ts = [] then Fault.noFallbackUntyped
          else Fault.noImplementation) := by
  obtain ⟨hres, _, _, _⟩ := dispatch_spec W gs d ts hmax hcons
  rw [hres]
  by_cases hempty : sorted_unique_types ts = []
  · simp only [coldDispatch, hempty]
    cases hfb : d.fallback <;> simp [hfb]
  · rcases h with h1 | hnomatch
    · exact absurd h1 hempty
    · have hb : buildMatching W d.alternatives (sorted_unique_types ts) = .ok [] :=
        buildMatching_nomatch W d.alternatives (sorted_unique_types ts) hnomatch
      simp only [coldDispatch, if_neg hempty, hb, resolveRes]

/-- Witness for C7: one registered backend for another type, no fallback —
the no-implementation fault. -/
theorem C7_empty_or_no_match_witness :
    ((⟨none, [(⟨1, tyNum, [], 1⟩, 3)], [], 0, 0, 0⟩ : Dispatchable).dispatch
        worldFlat gsInit [tyOther]).2 = .error .noImplementation := by
  have h := C7_empty_or_no_match worldFlat gsInit
    ⟨none, [(⟨1, tyNum, [], 1⟩, 3)], [], 0, 0, 0⟩ [tyOther]
    (by decide) (consistent_of_empty worldFlat gsInit _ rfl)
    (Or.inr (by decide))
  simpa using h

/-! ## C9 -/

/-- The resolution tail never changes the cache's key sequence when the
dispatched key is already present. -/
theorem resolve_keys (d : Dispatchable) (W : TypeWorld) (gs : GState)
    (k : List Ty) (ml : List (Backend × Nat))
    (hk : k ∈ d.cache.map Prod.fst) :
    (d.resolve W gs k ml).1.cache.map Prod.fst = d.cache.map Prod.fst := by
  rcases resolve_cache d W gs k ml with hc | ⟨r2, _, _, hc⟩
  · rw [hc]
  · rw [hc, cacheSet_keys_of_mem _ _ _ hk]

/-- The resolution tail never changes the cache's size when the dispatched
key is already present. -/
theorem resolve_length (d : Dispatchable) (W : TypeWorld) (gs : GState)
    (k : List Ty) (ml : List (Backend × Nat))
    (hk : k ∈ d.cache.map Prod.fst) :
    (d.resolve W gs k ml).1.cache.length = d.cache.length := by
  have h := resolve_keys d W gs k ml hk
  have h1 : (d.resolve W gs k ml).1.cache.length =
      ((d.resolve W gs k ml).1.cache.map Prod.fst).length := by simp
  rw [h1, h]
  simp

/-- **C9**: the cache is bounded at 20 keys with least-recently-used
eviction: after any dispatch the cache holds at most 20 keys; a cache hit
leaves the looked-up key in most-recently-used (last) position; and when a
new key is stored into a full cache, the least-recently-used (first) key is
the one evicted. -/
theorem C9_cache_lru (W : TypeWorld) (gs : GState) (d : Dispatchable)
    (ts : List Ty) (hsize : d.cache.length ≤ 20) :
    ((d.dispatch W gs ts).1.cache.length ≤ 20) ∧
    (∀ e rest, sorted_unique_types ts ≠ [] →
      cachePop d.cache (sorted_unique_types ts) = (some e, rest) →
      ((d.dispatch W gs ts).1.cache.map Prod.fst).getLast? =
        some (sorted_unique_types ts)) ∧
    (∀ ml, sorted_unique_types ts ≠ [] →
      (cachePop d.cache (sorted_unique_types ts)).1 = none →
      d.cache.length = 20 →
      buildMatching W d.alternatives (sorted_unique_types ts) = .ok ml →
      (d.dispatch W gs ts).1.cache.map Prod.fst =
        d.cache.tail.map Prod.fst ++ [sorted_unique_types ts]) := by
  by_cases hempty : sorted_unique_types ts = []
  · rw [dispatch_eq_empty W gs d ts hempty]
    exact ⟨hsize, fun e rest hne _ => absurd hempty hne,
      fun ml hne _ _ _ => absurd hempty hne⟩
  · rcases hpop : cachePop d.cache (sorted_unique_types ts) with ⟨co, rest⟩
    cases co with
    | some e =>
      have hlenpop : d.cache.length = rest.length + 1 :=
        cachePop_some_length _ _ _ _ hpop
      have hkmem : sorted_unique_types ts ∈
          (rest ++ [(sorted_unique_types ts, e)]).map Prod.fst := by
        simp
      have hkeyshit :
          ∀ d2 : Dispatchable,
            d2.cache = rest ++ [(sorted_unique_types ts, e)] →
            ∀ ml2, ((d2.resolve W gs (sorted_unique_types ts) ml2).1.cache.map
                Prod.fst).getLast? = some (sorted_unique_types ts) := by
        intro d2 hc ml2
        rw [resolve_keys d2 W gs _ ml2 (by rw [hc]; exact hkmem), hc]
        simp [List.getLast?_concat]
      have hlenhit :
          ∀ d2 : Dispatchable,
            d2.cache = rest ++ [(sorted_unique_types ts, e)] →
            ∀ ml2, (d2.resolve W gs (sorted_unique_types ts) ml2).1.cache.length ≤ 20 := by
        intro d2 hc ml2
        rw [resolve_length d2 W gs _ ml2 (by rw [hc]; exact hkmem), hc]
        simp
        omega
      refine ⟨?_, ?_, ?_⟩
      · by_cases hlen : 1 < e.matching.length
        · by_cases hstamp : gs.max_priority = e.stamp
          · rw [dispatch_eq_hit_valid W gs d ts e rest hempty hpop hlen hstamp]
            simp
            omega
          · rw [dispatch_eq_hit_stale W gs d ts e rest hempty hpop hlen hstamp]
            exact hlenhit _ rfl _
        · rw [dispatch_eq_hit_short W gs d ts e rest hempty hpop hlen]
          exact hlenhit _ rfl _
      · intro e2 rest2 hne hpop2
        injection hpop2 with h1 h2
        injection h1 with h1
        subst h1
        subst h2
        by_cases hlen : 1 < e.matching.length
        · by_cases hstamp : gs.max_priority = e.stamp
          · rw [dispatch_eq_hit_valid W gs d ts e rest hempty hpop hlen hstamp]
            simp [List.getLast?_concat]
          · rw [dispatch_eq_hit_stale W gs d ts e rest hempty hpop hlen hstamp]
            exact hkeyshit _ rfl _
        · rw [dispatch_eq_hit_short W gs d ts e rest hempty hpop hlen]
          exact hkeyshit _ rfl _
      · intro ml hne hpopnone _ _
        simp at hpopnone
    | none =>
      have hpop1 : (cachePop d.cache (sorted_unique_types ts)).1 = none := by
        rw [hpop]
      refine ⟨?_, ?_, ?_⟩
      · cases hbuild : buildMatching W d.alternatives (sorted_unique_types ts) with
        | error er =>
          rw [dispatch_eq_miss_error W gs d ts er hempty hpop1 hbuild]
          exact hsize
        | ok ml =>
          rw [dispatch_eq_miss_ok W gs d ts ml hempty hpop1 hbuild]
          have hkmem2 : sorted_unique_types ts ∈
              (((if 20 ≤ d.cache.length then d.cache.tail else d.cache)
                ++ [(sorted_unique_types ts,
                    (⟨ml, -1, none⟩ : CacheEntry))]).map Prod.fst) := by
            simp
          rw [resolve_length _ W gs _ ml hkmem2]
          by_cases h20 : 20 ≤ d.cache.length
          · rw [if_pos h20]
            simp
            omega
          · rw [if_neg h20]
            simp
            omega
      · intro e2 rest2 hne hpop2
        simp at hpop2
      · intro ml hne _ hfull hbuild
        rw [dispatch_eq_miss_ok W gs d ts ml hempty hpop1 hbuild]
        have hkmem2 : sorted_unique_types ts ∈
            (((if 20 ≤ d.cache.length then d.cache.tail else d.cache)
              ++ [(sorted_unique_types ts,
                  (⟨ml, -1, none⟩ : CacheEntry))]).map Prod.fst) := by
          simp
        rw [resolve_keys _ W gs _ ml hkmem2]
        rw [if_pos (by omega)]
        simp

/-- Witness for C9 at a concrete dispatch out of a small cache. -/
theorem C9_cache_lru_witness :
    ((dispSingleScoped.dispatch worldFlat gsInit [tyNum]).1.cache.length ≤ 20) :=
  (C9_cache_lru worldFlat gsInit dispSingleScoped [tyNum] (by decide)).1

/-! ## C4 -/

/-- **C4**: for a resolver with Fixed backend A (`dispatch_type` a concrete
`intT`) and Scoped backend C (same `dispatch_type`) registered after A,
`dispatch((intT,))` outside any activation returns A's pair; after entering
C's scope the same call returns C's pair; after exiting the scope it
returns A's pair again (enter-then-exit round-trips the dispatch answer).
The two final conjuncts show the stale resolved-cache entry is never
reused across the activation changes: each post-change call counts a
priority miss and recomputes. -/
theorem C4_scoped_enter_exit_round_trip (W : TypeWorld) (intT : Ty)
    (bidA bidC fA fC : Nat) (pA M : Int) (fb : Option Nat)
    (hconc : W.isAbstract intT = false) (hpA : 0 ≤ pA) (hpAM : pA ≤ M) :
    Backend.enter ⟨bidC, intT, [], -1⟩ ⟨M, []⟩ = .ok ⟨M + 1, [(bidC, [M + 1])]⟩ ∧
    Backend.exit ⟨bidC, intT, [], -1⟩ ⟨M + 1, [(bidC, [M + 1])]⟩ =
      some ⟨M + 2, [(bidC, [])]⟩ ∧
    ((Dispatchable.mk fb [(⟨bidA, intT, [], pA⟩, fA), (⟨bidC, intT, [], -1⟩, fC)]
        [] 0 0 0).dispatch W ⟨M, []⟩ [intT]).2 =
      .ok (some (some ⟨bidA, intT, [], pA⟩, fA)) ∧
    (((Dispatchable.mk fb [(⟨bidA, intT, [], pA⟩, fA), (⟨bidC, intT, [], -1⟩, fC)]
        [] 0 0 0).dispatch W ⟨M, []⟩ [intT]).1.dispatch W
          ⟨M + 1, [(bidC, [M + 1])]⟩ [intT]).2 =
      .ok (some (some ⟨bidC, intT, [], -1⟩, fC)) ∧
    ((((Dispatchable.mk fb [(⟨bidA, intT, [], pA⟩, fA), (⟨bidC, intT, [], -1⟩, fC)]
        [] 0 0 0).dispatch W ⟨M, []⟩ [intT]).1.dispatch W
          ⟨M + 1, [(bidC, [M + 1])]⟩ [intT]).1.dispatch W
          ⟨M + 2, [(bidC, [])]⟩ [intT]).2 =
      .ok (some (some ⟨bidA, intT, [], pA⟩, fA)) ∧
    (((Dispatchable.mk fb [(⟨bidA, intT, [], pA⟩, fA), (⟨bidC, intT, [], -1⟩, fC)]
        [] 0 0 0).dispatch W ⟨M, []⟩ [intT]).1.dispatch W
          ⟨M + 1, [(bidC, [M + 1])]⟩ [intT]).1.c_priority_misses = 1 ∧
    ((((Dispatchable.mk fb [(⟨bidA, intT, [], pA⟩, fA), (⟨bidC, intT, [], -1⟩, fC)]
        [] 0 0 0).dispatch W ⟨M, []⟩ [intT]).1.dispatch W
          ⟨M + 1, [(bidC, [M + 1])]⟩ [intT]).1.dispatch W
          ⟨M + 2, [(bidC, [])]⟩ [intT]).1.c_priority_misses = 2 := by
  have hn1 : ¬(0 ≤ (-1 : Int)) := by omega
  have hn2 : ¬(pA < 0) := by omega
  have hmA : Backend.matches ⟨bidA, intT, [], pA⟩ W [intT] = true := by
    simp [Backend.matches, hconc]
  have hmC : Backend.matches ⟨bidC, intT, [], -1⟩ W [intT] = true := by
    simp [Backend.matches, hconc]
  have hms1 : Backend.more_specific ⟨bidA, intT, [], pA⟩ W ⟨bidC, intT, [], -1⟩ = false := by
    simp [Backend.more_specific, hn1]
  have hms2 : Backend.more_specific ⟨bidC, intT, [], -1⟩ W ⟨bidA, intT, [], pA⟩ = false := by
    simp [Backend.more_specific, hn1]
  have hb1 : blt W ⟨bidA, intT, [], pA⟩ ⟨bidC, intT, [], -1⟩ = .ok false := by
    simp [blt, hms1]
  have hb2 : blt W ⟨bidC, intT, [], -1⟩ ⟨bidA, intT, [], pA⟩ = .ok false := by
    simp [blt, hms2]
  have hpa : Backend.get_priority ⟨bidA, intT, [], pA⟩ ⟨M, []⟩ = pA := by
    simp [Backend.get_priority, hpA]
  have hpc : Backend.get_priority ⟨bidC, intT, [], -1⟩ ⟨M, []⟩ = -1 := by
    simp [Backend.get_priority, ctxGet, hn1]
  have h1 : ((Dispatchable.mk fb
      [(⟨bidA, intT, [], pA⟩, fA), (⟨bidC, intT, [], -1⟩, fC)]
      [] 0 0 0).dispatch W ⟨M, []⟩ [intT]) =
      (⟨fb, [(⟨bidA, intT, [], pA⟩, fA), (⟨bidC, intT, [], -1⟩, fC)],
        [([intT], ⟨[(⟨bidA, intT, [], pA⟩, fA), (⟨bidC, intT, [], -1⟩, fC)], M,
          some (some ⟨bidA, intT, [], pA⟩, fA)⟩)], 0, 1, 0⟩,
       .ok (some (some ⟨bidA, intT, [], pA⟩, fA))) := by
    simp [Dispatchable.dispatch, sorted_unique_types, insertUnique, cachePop,
      buildMatching, buildMatchingAux, hmA, hmC, insertCandidate, hb1, hb2, Except.map,
      Dispatchable.resolve, scanPriority, hpa, hpc, hn2, cacheSet]
  have hstamp1 : ¬(M + 1 = M) := by omega
  have hpa1 : Backend.get_priority ⟨bidA, intT, [], pA⟩ ⟨M + 1, [(bidC, [M + 1])]⟩ = pA := by
    simp [Backend.get_priority, hpA]
  have hpc1 : Backend.get_priority ⟨bidC, intT, [], -1⟩ ⟨M + 1, [(bidC, [M + 1])]⟩ = M + 1 := by
    simp [Backend.get_priority, ctxGet, hn1]
  have hnc1 : ¬(M + 1 < 0) := by omega
  have hlt : pA < M + 1 := by omega
  have h2 : ((⟨fb, [(⟨bidA, intT, [], pA⟩, fA), (⟨bidC, intT, [], -1⟩, fC)],
        [([intT], ⟨[(⟨bidA, intT, [], pA⟩, fA), (⟨bidC, intT, [], -1⟩, fC)], M,
          some (some ⟨bidA, intT, [], pA⟩, fA)⟩)], 0, 1, 0⟩ :
        Dispatchable).dispatch W ⟨M + 1, [(bidC, [M + 1])]⟩ [intT]) =
      (⟨fb, [(⟨bidA, intT, [], pA⟩, fA), (⟨bidC, intT, [], -1⟩, fC)],
        [([intT], ⟨[(⟨bidA, intT, [], pA⟩, fA), (⟨bidC, intT, [], -1⟩, fC)], M + 1,
          some (some ⟨bidC, intT, [], -1⟩, fC)⟩)], 1, 1, 1⟩,
       .ok (some (some ⟨bidC, intT, [], -1⟩, fC))) := by
    simp [Dispatchable.dispatch, sorted_unique_types, insertUnique, cachePop,
      Dispatchable.resolve, scanPriority, hpa1, hpc1, hn2, hnc1, hstamp1, hlt,
      cacheSet]
  have hstamp2 : ¬(M + 2 = M + 1) := by omega
  have hpa2 : Backend.get_priority ⟨bidA, intT, [], pA⟩ ⟨M + 2, [(bidC, [])]⟩ = pA := by
    simp [Backend.get_priority, hpA]
  have hpc2 : Backend.get_priority ⟨bidC, intT, [], -1⟩ ⟨M + 2, [(bidC, [])]⟩ = -1 := by
    simp [Backend.get_priority, ctxGet, hn1]
  have h3 : ((⟨fb, [(⟨bidA, intT, [], pA⟩, fA), (⟨bidC, intT, [], -1⟩, fC)],
        [([intT], ⟨[(⟨bidA, intT, [], pA⟩, fA), (⟨bidC, intT, [], -1⟩, fC)], M + 1,
          some (some ⟨bidC, intT, [], -1⟩, fC)⟩)], 1, 1, 1⟩ :
        Dispatchable).dispatch W ⟨M + 2, [(bidC, [])]⟩ [intT]) =
      (⟨fb, [(⟨bidA, intT, [], pA⟩, fA), (⟨bidC, intT, [], -1⟩, fC)],
        [([intT], ⟨[(⟨bidA, intT, [], pA⟩, fA), (⟨bidC, intT, [], -1⟩, fC)], M + 2,
          some (some ⟨bidA, intT, [], pA⟩, fA)⟩)], 2, 1, 2⟩,
       .ok (some (some ⟨bidA, intT, [], pA⟩, fA))) := by
    simp [Dispatchable.dispatch, sorted_unique_types, insertUnique, cachePop,
      Dispatchable.resolve, scanPriority, hpa2, hpc2, hn2, hstamp2, cacheSet]
  refine ⟨by simp [Backend.enter, ctxGet, ctxSet, hn1],
    by simp [Backend.exit, ctxGet, ctxSet]; omega,
    by rw [h1], ?_, ?_, ?_, ?_⟩
  · rw [h1]
    rw [h2]
  · rw [h1]
    rw [h2]
    rw [h3]
  · rw [h1]
    rw [h2]
  · rw [h1]
    rw [h2]
    rw [h3]

/-- Witness for C4: inside C's scope the same call returns C's pair. -/
theorem C4_scoped_enter_exit_round_trip_witness :
    (((Dispatchable.mk none [(⟨1, tyNum, [], 1⟩, 11), (⟨2, tyNum, [], -1⟩, 22)]
        [] 0 0 0).dispatch worldFlat ⟨65536, []⟩ [tyNum]).1.dispatch worldFlat
          ⟨65536 + 1, [(2, [65536 + 1])]⟩ [tyNum]).2 =
      .ok (some (some ⟨2, tyNum, [], -1⟩, 22)) :=
  (C4_scoped_enter_exit_round_trip worldFlat tyNum 1 2 11 22 1 65536 none
    (by decide) (by decide) (by decide)).2.2.2.1
